import Mathlib

/-!
Verification of the Apex trigger anti-pattern scanner
(`scripts/analyze_trigger.py`): a shallow embedding of the line-oriented
heuristic scanner — loop-tracking state machine, DML/SOQL pattern sweeps,
bulkification warnings, complexity scoring and recommendation — together
with theorems settling the behavioural claims about it.

Text is modelled as `List Char`; the Python regular expressions are
embedded as explicit character scans over ASCII word/whitespace classes
(the inputs of interest are ASCII source text).
-/

namespace TriggerAnalyzer

/-- Whitespace characters recognised by `str.strip()` and by the regex
class `\s` (ASCII fragment). -/
def isSpaceCh (c : Char) : Bool :=
  c = ' ' || c = '\t' || c = '\n' || c = '\r' || c = '\x0b' || c = '\x0c'

/-- Word characters for the regex class `\w` / the word boundary `\b`
(ASCII fragment): letters, digits and underscore. -/
def isWordChar (c : Char) : Bool :=
  c.isAlpha || c.isDigit || c = '_'

/-- Split a text into lines at newline characters, exactly like Python
`text.split('\n')`: the empty text yields one empty line, and a trailing
newline yields a final empty line. -/
def splitLines : List Char → List (List Char)
  | [] => [[]]
  | c :: cs =>
    if c = '\n' then [] :: splitLines cs
    else
      match splitLines cs with
      | [] => [[c]]
      | l :: ls => (c :: l) :: ls

/-- Drop leading whitespace characters from a list of characters. -/
def dropLeadingWS : List Char → List Char
  | [] => []
  | c :: cs => if isSpaceCh c then dropLeadingWS cs else c :: cs

/-- Python `line.strip()`: remove leading and trailing whitespace. -/
def stripWS (l : List Char) : List Char :=
  (dropLeadingWS (dropLeadingWS l).reverse).reverse

/-- Match a literal token at the head of a list; on success return the
rest of the list after the token. -/
def matchTok : List Char → List Char → Option (List Char)
  | [], rest => some rest
  | _ :: _, [] => none
  | t :: ts, c :: cs => if c = t then matchTok ts cs else none

/-- Match a literal token case-insensitively (the token is given in
lowercase) at the head of a list, as under `re.IGNORECASE`. -/
def matchTokCI : List Char → List Char → Option (List Char)
  | [], rest => some rest
  | _ :: _, [] => none
  | t :: ts, c :: cs => if c.toLower = t then matchTokCI ts cs else none

/-- Word-boundary test for the character preceding the current position:
at the start of the line (`none`) or after a non-word character. -/
def boundaryOk : Option Char → Bool
  | none => true
  | some c => !isWordChar c

/-- Test whether the list starts with `tok` immediately followed by at
least one whitespace character, i.e. matches `TOK\s+` at this position. -/
def tokWsAt (tok : List Char) (l : List Char) : Bool :=
  match matchTok tok l with
  | some (d :: _) => isSpaceCh d
  | _ => false

/-- Search for `\bTOK\s+` anywhere in the line (the regex `re.search`
semantics), carrying the previous character for the word boundary. -/
def searchWB (tok : List Char) : Option Char → List Char → Bool
  | _, [] => false
  | prev, c :: cs =>
    (boundaryOk prev && tokWsAt tok (c :: cs)) || searchWB tok (some c) cs

/-- Test whether a line matches the DML regex `\bTOK\s+` for token `tok`
(case-sensitive), as used by `analyze_dml_in_loops`. -/
def dmlHit (tok : List Char) (line : List Char) : Bool :=
  searchWB tok none line

/-- Test for `\s*\(`: zero or more whitespace characters and then an
opening parenthesis. -/
def wsThenParen : List Char → Bool
  | [] => false
  | c :: cs => if c = '(' then true else if isSpaceCh c then wsThenParen cs else false

/-- Test whether the list matches `for\s*\(` at its head. -/
def forAt (l : List Char) : Bool :=
  match matchTok ('f' :: 'o' :: 'r' :: []) l with
  | some rest => wsThenParen rest
  | none => false

/-- Search for the loop-opening signature `\bfor\s*\(` anywhere in the
line, carrying the previous character for the word boundary. -/
def searchFor : Option Char → List Char → Bool
  | _, [] => false
  | prev, c :: cs => (boundaryOk prev && forAt (c :: cs)) || searchFor (some c) cs

/-- Test whether a line matches the loop-opening regex `\bfor\s*\(`. -/
def containsForOpen (line : List Char) : Bool :=
  searchFor none line

/-- Lowercase token for the case-insensitive SOQL keyword match. -/
def selectTok : List Char := "select".data

/-- Test whether the list starts with `tok` (case-insensitively)
followed by at least one whitespace character. -/
def tokWsAtCI (tok : List Char) (l : List Char) : Bool :=
  match matchTokCI tok l with
  | some (d :: _) => isSpaceCh d
  | _ => false

/-- Test whether the list matches `\[SELECT\s+` (case-insensitive) at
its head: a literal opening square bracket, the keyword, whitespace. -/
def soqlAt : List Char → Bool
  | [] => false
  | c :: cs => c = '[' && tokWsAtCI selectTok cs

/-- Search for the SOQL pattern `\[SELECT\s+` (case-insensitive)
anywhere in the line. -/
def searchSoql : List Char → Bool
  | [] => false
  | c :: cs => soqlAt (c :: cs) || searchSoql cs

/-- Test whether a line matches the SOQL regex of
`analyze_soql_in_loops`. -/
def soqlHit (line : List Char) : Bool :=
  searchSoql line

/-- The closing-brace character, used by the loop-exit heuristic. -/
def closeBrace : Char := '\x7d'

/-- The five DML pattern tokens of `dml_patterns`, in declaration
order: each stands for the regex `\bTOK\s+`. -/
def dml_patterns : List (List Char) :=
  ["insert".data, "update".data, "delete".data, "undelete".data, "upsert".data]

/-- One detected anti-pattern occurrence, as appended to
`self.issues[...]`: the 1-based line number, the stripped line text, and
the line where the enclosing loop was opened. -/
structure Finding where
  line : Nat
  code : List Char
  loop_start : Nat
deriving DecidableEq, Repr

/-- A derived bulkification warning, as appended to
`self.issues['missing_bulk']`. -/
structure BulkWarning where
  message : String
  affected_lines : List Nat
deriving DecidableEq, Repr

/-- The loop-tracking state: (`in_loop`, `loop_start`). -/
def stepState (s : Bool × Nat) (i : Nat) (line : List Char) : Bool × Nat :=
  let s' := if containsForOpen line then (true, i) else s
  if s'.1 ∧ stripWS line = [closeBrace] then (false, s'.2) else s'

/-- Generic single forward pass of the scanner: for each line (1-based
index `i`), update the loop state exactly as the Python loop body does,
then, when inside a loop, emit that line's findings via `emit`. -/
def scanAux (emit : Nat → Nat → List Char → List Finding) :
    List (List Char) → Nat → Bool × Nat → List Finding
  | [], _, _ => []
  | line :: rest, i, s =>
    (if (stepState s i line).1 then emit i (stepState s i line).2 line else [])
      ++ scanAux emit rest (i + 1) (stepState s i line)

/-- Per-line findings of the DML sweep: one `Finding` per matching
pattern of `dml_patterns`, in pattern-declaration order. -/
def dmlEmit (i ls : Nat) (line : List Char) : List Finding :=
  (dml_patterns.filter (fun p => dmlHit p line)).map
    (fun _ => { line := i, code := stripWS line, loop_start := ls })

/-- The method `analyze_dml_in_loops`: detect DML operations inside
`for` loops. -/
def analyze_dml_in_loops (body : List Char) : List Finding :=
  scanAux dmlEmit (splitLines body) 1 (false, 0)

/-- Per-line findings of the SOQL sweep: one `Finding` when the SOQL
pattern matches. -/
def soqlEmit (i ls : Nat) (line : List Char) : List Finding :=
  if soqlHit line then [{ line := i, code := stripWS line, loop_start := ls }] else []

/-- The method `analyze_soql_in_loops`: detect SOQL queries inside
`for` loops. -/
def analyze_soql_in_loops (body : List Char) : List Finding :=
  scanAux soqlEmit (splitLines body) 1 (false, 0)

/-- Warning message emitted when DML findings are present. -/
def dmlWarningMsg : String :=
  "DML operations should be collected and executed outside loops"

/-- Warning message emitted when SOQL findings are present. -/
def soqlWarningMsg : String :=
  "SOQL queries should be moved outside loops or use Maps for lookups"

/-- The method `analyze_bulkification`: one warning per non-empty
finding kind, DML first, `affected_lines` in detection order. -/
def analyze_bulkification (dml soql : List Finding) : List BulkWarning :=
  (if dml = [] then []
   else [{ message := dmlWarningMsg, affected_lines := dml.map (fun f => f.line) }]) ++
  (if soql = [] then []
   else [{ message := soqlWarningMsg, affected_lines := soql.map (fun f => f.line) }])

/-- Token scanned for by `Trigger\.(isBefore|isAfter)`, first branch. -/
def ctxTokBefore : List Char := "Trigger.isBefore".data

/-- Token scanned for by `Trigger\.(isBefore|isAfter)`, second branch. -/
def ctxTokAfter : List Char := "Trigger.isAfter".data

/-- Count of non-overlapping matches of `Trigger\.(isBefore|isAfter)`
(`re.findall` semantics): scan left to right, and after a match resume
after its last character. `skip` is the number of characters of the
current match still to be consumed. -/
def ctxCountAux : List Char → Nat → Nat
  | [], _ => 0
  | _ :: cs, Nat.succ k => ctxCountAux cs k
  | c :: cs, 0 =>
    match matchTok ctxTokBefore (c :: cs) with
    | some _ => 1 + ctxCountAux cs 15
    | none =>
      match matchTok ctxTokAfter (c :: cs) with
      | some _ => 1 + ctxCountAux cs 14
      | none => ctxCountAux cs 0

/-- Number of trigger-context markers in the full text, as computed by
`len(re.findall(r'Trigger\.(isBefore|isAfter)', body))`. -/
def ctxCount (body : List Char) : Nat :=
  ctxCountAux body 0

/-- Number of non-blank lines, as computed by
`len([l for l in body.split('\n') if l.strip()])`. -/
def nonBlankCount (body : List Char) : Nat :=
  ((splitLines body).filter (fun l => !(stripWS l).isEmpty)).length

/-- The method `calculate_complexity`: base 1, plus 2 per DML finding,
2 per SOQL finding, 1 per bulkification warning, 1 per trigger-context
marker, plus `min(loc // 10, 3)`, the total clamped by `min(score, 10)`. -/
def calculate_complexity (body : List Char) (dml soql : List Finding)
    (bulk : List BulkWarning) : Nat :=
  min (1 + dml.length * 2 + soql.length * 2 + bulk.length * 1
        + ctxCount body + min (nonBlankCount body / 10) 3) 10

/-- Recommendation string for the low tier. -/
def simpleRec : String :=
  "Simple handler class with separate methods for each trigger context"

/-- Recommendation string for the middle tier. -/
def bulkifiedRec : String :=
  "Handler class with bulkified collections and helper methods"

/-- Recommendation string for the high tier. -/
def unifiedRec : String :=
  "Unified handler framework with separate concern classes (validation, DML, etc.)"

/-- The method `recommend_approach`: three tiers over the complexity
score. -/
def recommend_approach (score : Nat) : String :=
  if score ≤ 3 then simpleRec
  else if score ≤ 6 then bulkifiedRec
  else unifiedRec

/-- The aggregate produced by one analysis run. -/
structure Report where
  dml : List Finding
  soql : List Finding
  bulk : List BulkWarning
  complexity_score : Nat
  recommendation : String
deriving DecidableEq, Repr

/-- The full analysis pipeline, in the order the methods are invoked in
`main`: DML sweep, SOQL sweep, bulkification, complexity, then the
recommendation read off the score. -/
def analyze (body : List Char) : Report :=
  let dml := analyze_dml_in_loops body
  let soql := analyze_soql_in_loops body
  let bulk := analyze_bulkification dml soql
  let score := calculate_complexity body dml soql bulk
  { dml := dml, soql := soql, bulk := bulk, complexity_score := score,
    recommendation := recommend_approach score }

/-- Last character of `pre`, falling back to the character preceding
`pre` when `pre` is empty: the character just before a match that
starts right after `pre`. -/
def lastChar : Option Char → List Char → Option Char
  | prev, [] => prev
  | _, d :: ds => lastChar (some d) ds

/-- Loop-interior classification of each line by the state machine: the
flag recorded for a line is the state after that line's entry/exit
transitions, the state in which the line is tested for anti-patterns. -/
def flagsAux : List (List Char) → Bool × Nat → Nat → List Bool
  | [], _, _ => []
  | line :: rest, s, i =>
    (stepState s i line).1 :: flagsAux rest (stepState s i line) (i + 1)

/-- Loop-interior flags for a full line sequence, from the initial
state. -/
def loopInterior (lines : List (List Char)) : List Bool :=
  flagsAux lines (false, 0) 1

/-- Number of DML pattern matches on a single line (one per matching
pattern of `dml_patterns`). -/
def dmlMatchCount (line : List Char) : Nat :=
  (dml_patterns.filter (fun p => dmlHit p line)).length

/-- Independent re-scan count: total DML pattern matches over exactly
the lines the state machine classifies as loop-interior. -/
def dmlRescanCount (body : List Char) : Nat :=
  (((loopInterior (splitLines body)).zip (splitLines body)).map
    (fun p => if p.1 then dmlMatchCount p.2 else 0)).sum

/-- Example input: a loop with a DML statement and a closing brace on
its own line. -/
def simpleLoopExample : List Char :=
  ("for (Opportunity o : Trigger.new) \x7b\n    insert t;\n\x7d").data

/-- The single DML finding produced on `simpleLoopExample`. -/
def simpleFinding : Finding :=
  { line := 2, code := "insert t;".data, loop_start := 1 }

/-- Example input: a loop whose body contains a nested block closing
before the loop does, with a DML statement after the nested close. -/
def nestedLoopExample : List Char :=
  ("for (Account a : accs) \x7b\n    if (flag) \x7b\n    \x7d\n    insert a;\n\x7d").data

/-- The DML line of `nestedLoopExample`, after the nested close. -/
def nestedInsertLine : List Char := "    insert a;".data

/-- Example input: a loop whose body contains a nested block closing
before the loop does, with a SOQL query after the nested close. -/
def nestedSoqlExample : List Char :=
  ("for (Account a : accs) \x7b\n    if (flag) \x7b\n    \x7d\n    cs = [SELECT Id FROM Contact];\n\x7d").data

/-- The SOQL line of `nestedSoqlExample`, after the nested close. -/
def nestedSoqlLine : List Char := "    cs = [SELECT Id FROM Contact];".data

/-- Example input: a loop-interior line matching two distinct DML
patterns. -/
def twoTokenExample : List Char :=
  ("for (x) \x7b\n    insert a; update b;\n\x7d").data

/-- The doubly-matching line of `twoTokenExample`. -/
def twoTokenLine : List Char := "    insert a; update b;".data

/-- The stripped text of the doubly-matching line. -/
def twoTokenCode : List Char := "insert a; update b;".data

/-- Example input: a loop whose only candidate line has a differently
cased token. -/
def caseLoopExample : List Char :=
  ("for (x) \x7b\n    Insert a;\n\x7d").data

/-- Example input: a loop whose only candidate line has a token not
followed by whitespace. -/
def semiLoopExample : List Char :=
  ("for (x) \x7b\n    insert;\n\x7d").data

/-- Example input: a single line that both opens a loop and contains a
SOQL query. -/
def forSoqlLine : List Char :=
  ("for (Account a : [SELECT Id FROM Account]) \x7b").data

/-- Example input: a single line that both opens a loop and contains a
DML statement. -/
def forDmlLine : List Char :=
  ("for (x) \x7b insert a; \x7d").data

theorem matchTok_eq_some : ∀ (t l r : List Char), matchTok t l = some r ↔ l = t ++ r := by
  intro t
  induction t with
  | nil =>
    intro l r
    simp only [matchTok, Option.some_inj, List.nil_append]
  | cons a ts ih =>
    intro l r
    cases l with
    | nil => simp [matchTok]
    | cons c cs =>
      simp only [matchTok, List.cons_append, List.cons_eq_cons]
      by_cases h : c = a
      · simp [h, ih]
      · simp [h]

theorem tokWsAt_iff (tok l : List Char) :
    tokWsAt tok l = true ↔ ∃ d post, l = tok ++ d :: post ∧ isSpaceCh d = true := by
  unfold tokWsAt
  cases h : matchTok tok l with
  | none =>
    simp only [Bool.false_eq_true, false_iff]
    rintro ⟨d, post, rfl, -⟩
    rw [(matchTok_eq_some tok _ (d :: post)).mpr rfl] at h
    cases h
  | some r =>
    rw [matchTok_eq_some] at h
    subst h
    cases r with
    | nil =>
      simp only [Bool.false_eq_true, false_iff]
      rintro ⟨d, post, heq, -⟩
      simp at heq
    | cons d post =>
      simp only [List.append_cancel_left_eq, List.cons_eq_cons]
      constructor
      · intro hd
        exact ⟨d, post, by simp, hd⟩
      · rintro ⟨d', post', ⟨rfl, rfl⟩, hd⟩
        exact hd

theorem searchWB_iff (tok : List Char) :
    ∀ (l : List Char) (prev : Option Char),
      searchWB tok prev l = true ↔
        ∃ pre d post, l = pre ++ tok ++ d :: post ∧ isSpaceCh d = true ∧
          boundaryOk (lastChar prev pre) = true := by
  intro l
  induction l with
  | nil =>
    intro prev
    simp only [searchWB, Bool.false_eq_true, false_iff]
    rintro ⟨pre, d, post, heq, -, -⟩
    have := congrArg List.length heq
    simp [List.length_append] at this
    omega
  | cons c cs ih =>
    intro prev
    simp only [searchWB, Bool.or_eq_true, Bool.and_eq_true]
    rw [ih (some c), tokWsAt_iff]
    constructor
    · rintro (⟨hb, d, post, heq, hd⟩ | ⟨pre, d, post, heq, hd, hbb⟩)
      · exact ⟨[], d, post, by simpa using heq, hd, by simpa [lastChar] using hb⟩
      · exact ⟨c :: pre, d, post, by simp [heq], hd, by simpa [lastChar] using hbb⟩
    · rintro ⟨pre, d, post, heq, hd, hb⟩
      cases pre with
      | nil =>
        exact Or.inl ⟨by simpa [lastChar] using hb, d, post, by simpa using heq, hd⟩
      | cons p pre' =>
        rw [List.cons_append, List.cons_append, List.cons_eq_cons] at heq
        obtain ⟨rfl, hcs⟩ := heq
        exact Or.inr ⟨pre', d, post, by simpa using hcs, hd, by simpa [lastChar] using hb⟩

theorem mem_dropLeadingWS {c : Char} : ∀ {l : List Char}, c ∈ l → isSpaceCh c = false →
    c ∈ dropLeadingWS l := by
  intro l
  induction l with
  | nil => intro h _; cases h
  | cons a as ih =>
    intro h hc
    rw [List.mem_cons] at h
    unfold dropLeadingWS
    by_cases ha : isSpaceCh a
    · rcases h with rfl | h
      · rw [hc] at ha; cases ha
      · simpa [ha] using ih h hc
    · simpa [ha] using h

theorem mem_stripWS {c : Char} {l : List Char} (h : c ∈ l) (hc : isSpaceCh c = false) :
    c ∈ stripWS l := by
  unfold stripWS
  rw [List.mem_reverse]
  exact mem_dropLeadingWS (by rw [List.mem_reverse]; exact mem_dropLeadingWS h hc) hc

theorem forAt_mem (l : List Char) (h : forAt l = true) : 'f' ∈ l := by
  unfold forAt at h
  cases hm : matchTok ('f' :: 'o' :: 'r' :: []) l with
  | none => rw [hm] at h; cases h
  | some rest =>
    rw [matchTok_eq_some] at hm
    subst hm
    simp

theorem searchFor_mem : ∀ (l : List Char) (prev : Option Char),
    searchFor prev l = true → 'f' ∈ l := by
  intro l
  induction l with
  | nil => intro prev h; cases h
  | cons a as ih =>
    intro prev h
    simp only [searchFor, Bool.or_eq_true, Bool.and_eq_true] at h
    rcases h with ⟨-, hf⟩ | h
    · exact forAt_mem _ hf
    · exact List.mem_cons_of_mem _ (ih (some a) h)

theorem containsForOpen_eq_false {line : List Char} (h : stripWS line = [closeBrace]) :
    containsForOpen line = false := by
  by_contra hc
  rw [Bool.not_eq_false] at hc
  have hmem : 'f' ∈ stripWS line := mem_stripWS (searchFor_mem line none hc) (by decide)
  rw [h, List.mem_singleton] at hmem
  exact absurd hmem (by decide)

theorem stepState_exit_iff (s : Bool × Nat) (i : Nat) (line : List Char) (hs : s.1 = true) :
    ((stepState s i line).1 = false ↔ stripWS line = [closeBrace]) := by
  by_cases hb : stripWS line = [closeBrace]
  · have hf := containsForOpen_eq_false hb
    simp [stepState, hf, hb, hs]
  · by_cases hf : containsForOpen line = true
    · simp [stepState, hf, hb]
    · simp only [Bool.not_eq_true] at hf
      simp [stepState, hf, hb, hs]

theorem stepState_snd_le (s : Bool × Nat) (i : Nat) (line : List Char) (h : s.2 ≤ i) :
    (stepState s i line).2 ≤ i := by
  unfold stepState
  by_cases hf : containsForOpen line = true <;>
    by_cases hb : stripWS line = [closeBrace] <;>
      (simp [hf, hb, h]; try split) <;> simp [h]

theorem dmlEmit_mem {i ls : Nat} {line : List Char} {f : Finding}
    (h : f ∈ dmlEmit i ls line) :
    f = { line := i, code := stripWS line, loop_start := ls } := by
  unfold dmlEmit at h
  rw [List.mem_map] at h
  obtain ⟨p, -, rfl⟩ := h
  rfl

theorem soqlEmit_mem {i ls : Nat} {line : List Char} {f : Finding}
    (h : f ∈ soqlEmit i ls line) :
    f = { line := i, code := stripWS line, loop_start := ls } := by
  unfold soqlEmit at h
  split at h
  · simpa using h
  · cases h

theorem scanAux_loopstart_le (emit : Nat → Nat → List Char → List Finding)
    (hl : ∀ (i ls : Nat) (line : List Char) (f : Finding), f ∈ emit i ls line →
      f = { line := i, code := stripWS line, loop_start := ls }) :
    ∀ (lines : List (List Char)) (i : Nat) (s : Bool × Nat), s.2 ≤ i →
      ∀ f ∈ scanAux emit lines i s, f.loop_start ≤ f.line := by
  intro lines
  induction lines with
  | nil => intro i s _ f hf; cases hf
  | cons line rest ih =>
    intro i s hs f hf
    have ht : (stepState s i line).2 ≤ i := stepState_snd_le s i line hs
    simp only [scanAux, List.mem_append] at hf
    rcases hf with hf | hf
    · have hmem : f ∈ emit i (stepState s i line).2 line := by
        by_cases h1 : (stepState s i line).1 = true
        · simpa [h1] using hf
        · rw [Bool.not_eq_true] at h1
          rw [h1] at hf
          cases hf
      rw [hl _ _ _ _ hmem]
      exact ht
    · exact ih (i + 1) _ (le_trans ht (Nat.le_succ i)) f hf

theorem scanAux_line_lb (emit : Nat → Nat → List Char → List Finding)
    (hl : ∀ (i ls : Nat) (line : List Char) (f : Finding), f ∈ emit i ls line →
      f = { line := i, code := stripWS line, loop_start := ls }) :
    ∀ (lines : List (List Char)) (i : Nat) (s : Bool × Nat),
      ∀ f ∈ scanAux emit lines i s, i ≤ f.line := by
  intro lines
  induction lines with
  | nil => intro i s f hf; cases hf
  | cons line rest ih =>
    intro i s f hf
    simp only [scanAux, List.mem_append] at hf
    rcases hf with hf | hf
    · have hmem : f ∈ emit i (stepState s i line).2 line := by
        by_cases h1 : (stepState s i line).1 = true
        · simpa [h1] using hf
        · rw [Bool.not_eq_true] at h1
          rw [h1] at hf
          cases hf
      rw [hl _ _ _ _ hmem]
    · exact le_trans (Nat.le_succ i) (ih (i + 1) _ f hf)

theorem sorted_of_const {l : List Nat} {c : Nat} (h : ∀ x ∈ l, x = c) :
    l.Sorted (· ≤ ·) := by
  induction l with
  | nil => exact List.sorted_nil
  | cons a as ih =>
    rw [List.sorted_cons]
    refine ⟨fun b hb => ?_, ih fun x hx => h x (by simp [hx])⟩
    rw [h a (by simp), h b (by simp [hb])]

theorem scanAux_sorted (emit : Nat → Nat → List Char → List Finding)
    (hl : ∀ (i ls : Nat) (line : List Char) (f : Finding), f ∈ emit i ls line →
      f = { line := i, code := stripWS line, loop_start := ls }) :
    ∀ (lines : List (List Char)) (i : Nat) (s : Bool × Nat),
      ((scanAux emit lines i s).map (fun f => f.line)).Sorted (· ≤ ·) := by
  intro lines
  induction lines with
  | nil => intro i s; exact List.sorted_nil
  | cons line rest ih =>
    intro i s
    simp only [scanAux, List.map_append]
    unfold List.Sorted
    rw [List.pairwise_append]
    have hblock : ∀ f ∈ (if (stepState s i line).1 then
        emit i (stepState s i line).2 line else []), f.line = i := by
      intro f hf
      by_cases h1 : (stepState s i line).1 = true
      · rw [h1] at hf
        simp only [if_true] at hf
        rw [hl _ _ _ _ hf]
      · rw [Bool.not_eq_true] at h1
        rw [h1] at hf
        cases hf
    refine ⟨sorted_of_const (c := i) (fun x hx => ?_), ih (i + 1) _, fun x hx y hy => ?_⟩
    · rw [List.mem_map] at hx
      obtain ⟨f, hf, rfl⟩ := hx
      exact hblock f hf
    · rw [List.mem_map] at hx hy
      obtain ⟨f, hf, rfl⟩ := hx
      obtain ⟨g, hg, rfl⟩ := hy
      rw [hblock f hf]
      exact le_trans (Nat.le_succ i) (scanAux_line_lb emit hl rest (i + 1) _ g hg)

theorem scanAux_mem_flag (emit : Nat → Nat → List Char → List Finding)
    (hl : ∀ (i ls : Nat) (line : List Char) (f : Finding), f ∈ emit i ls line →
      f = { line := i, code := stripWS line, loop_start := ls }) :
    ∀ (lines : List (List Char)) (i : Nat) (s : Bool × Nat),
      ∀ f ∈ scanAux emit lines i s,
        ∃ k, (flagsAux lines s i).get? k = some true ∧ f.line = i + k := by
  intro lines
  induction lines with
  | nil => intro i s f hf; cases hf
  | cons line rest ih =>
    intro i s f hf
    simp only [scanAux, List.mem_append] at hf
    rcases hf with hf | hf
    · by_cases h1 : (stepState s i line).1 = true
      · rw [h1] at hf
        simp only [if_true] at hf
        refine ⟨0, ?_, ?_⟩
        · simp [flagsAux, h1]
        · rw [hl _ _ _ _ hf]
          rfl
      · rw [Bool.not_eq_true] at h1
        rw [h1] at hf
        cases hf
    · obtain ⟨k, hk1, hk2⟩ := ih (i + 1) _ f hf
      exact ⟨k + 1, by simpa [flagsAux] using hk1, by omega⟩

theorem scanAux_length (emit : Nat → Nat → List Char → List Finding)
    (hits : List Char → Nat)
    (h : ∀ (i ls : Nat) (line : List Char), (emit i ls line).length = hits line) :
    ∀ (lines : List (List Char)) (i : Nat) (s : Bool × Nat),
      (scanAux emit lines i s).length
        = (((flagsAux lines s i).zip lines).map
            (fun p => if p.1 then hits p.2 else 0)).sum := by
  intro lines
  induction lines with
  | nil => intro i s; rfl
  | cons line rest ih =>
    intro i s
    simp only [scanAux, flagsAux, List.length_append, List.zip_cons_cons,
      List.map_cons, List.sum_cons]
    rw [ih (i + 1)]
    by_cases h1 : (stepState s i line).1 = true
    · simp [h1, h i (stepState s i line).2 line]
    · rw [Bool.not_eq_true] at h1
      simp [h1]

theorem scanAux_cons_for (emit : Nat → Nat → List Char → List Finding)
    (line : List Char) (rest : List (List Char)) (i : Nat) (s : Bool × Nat)
    (h : containsForOpen line = true) :
    scanAux emit (line :: rest) i s
      = emit i i line ++ scanAux emit rest (i + 1) (true, i) := by
  have hb : ¬ stripWS line = [closeBrace] := by
    intro hb
    rw [containsForOpen_eq_false hb] at h
    cases h
  have ht : stepState s i line = (true, i) := by
    unfold stepState
    simp [h, hb]
  simp [scanAux, ht]

theorem scanAux_get_for (emit : Nat → Nat → List Char → List Finding)
    (hl : ∀ (i ls : Nat) (line : List Char) (f : Finding), f ∈ emit i ls line →
      f = { line := i, code := stripWS line, loop_start := ls }) :
    ∀ (lines : List (List Char)) (k : Nat) (line : List Char) (i : Nat) (s : Bool × Nat),
      lines.get? k = some line → containsForOpen line = true →
      (∀ j : Nat, emit j j line ≠ []) →
      ∃ f ∈ scanAux emit lines i s, f.line = i + k ∧ f.loop_start = i + k := by
  intro lines
  induction lines with
  | nil => intro k line i s hg; cases hg
  | cons l' rest ih =>
    intro k line i s hg hfor hne
    cases k with
    | zero =>
      rw [List.get?_cons_zero, Option.some_inj] at hg
      subst hg
      obtain ⟨f, hf⟩ := List.exists_mem_of_ne_nil _ (hne i)
      refine ⟨f, ?_, ?_, ?_⟩
      · rw [scanAux_cons_for emit l' rest i s hfor]
        exact List.mem_append_left _ hf
      · rw [hl _ _ _ _ hf]
        rfl
      · rw [hl _ _ _ _ hf]
        rfl
    | succ k =>
      rw [List.get?_cons_succ] at hg
      obtain ⟨f, hf, hline, hls⟩ := ih k line (i + 1) (stepState s i l') hg hfor hne
      refine ⟨f, ?_, by omega, by omega⟩
      simp only [scanAux]
      exact List.mem_append_right _ hf

/-- C1: `calculate_complexity` returns exactly
`min (1 + 2*|dml| + 2*|soql| + |bulk| + ctxCount + min (loc/10) 3) 10`
(integer floor division), and for every input text the resulting
complexity score lies in the closed interval [1, 10]. -/
theorem complexity_formula_and_clamp (body : List Char) :
    (analyze body).complexity_score
      = min (1 + 2 * (analyze body).dml.length + 2 * (analyze body).soql.length
          + (analyze body).bulk.length + ctxCount body
          + min (nonBlankCount body / 10) 3) 10
    ∧ 1 ≤ (analyze body).complexity_score ∧ (analyze body).complexity_score ≤ 10 := by
  refine ⟨?_, ?_, ?_⟩ <;> simp only [analyze, calculate_complexity] <;> omega

/-- C2: the state machine leaves `InsideLoop` exactly on a line whose
whitespace-trimmed content is a single closing brace (no brace-nesting
depth is tracked); consequently, on an input whose loop body contains a
nested block closing before the loop does, anti-pattern lines between
the nested close and the loop's true close produce no findings, for
either sweep. -/
theorem loop_exit_iff_brace :
    (∀ (s : Bool × Nat) (i : Nat) (line : List Char), s.1 = true →
      ((stepState s i line).1 = false ↔ stripWS line = [closeBrace]))
    ∧ dmlHit ("insert".data) nestedInsertLine = true
    ∧ analyze_dml_in_loops nestedLoopExample = []
    ∧ soqlHit nestedSoqlLine = true
    ∧ analyze_soql_in_loops nestedSoqlExample = [] := by
  exact ⟨stepState_exit_iff, by decide, by decide, by decide, by decide⟩

/-- C2 witness: on a concrete trimmed closing-brace line, a concrete
inside-loop state transitions to outside. -/
theorem loop_exit_iff_brace_witness :
    (stepState (true, 7) 9 ("  \x7d").data).1 = false :=
  (loop_exit_iff_brace.1 (true, 7) 9 (("  \x7d").data) rfl).mpr (by decide)

/-- C3: the number of DML findings equals the number of DML pattern
matches obtained by independently re-scanning only the lines the state
machine classifies as loop-interior; no finding is reported for a line
classified outside (every finding's line carries a `true` interior
flag); and the detection is idempotent. -/
theorem dml_rescan_equivalence (body : List Char) :
    (analyze_dml_in_loops body).length = dmlRescanCount body
    ∧ (∀ f ∈ analyze_dml_in_loops body,
        ∃ k, (loopInterior (splitLines body)).get? k = some true ∧ f.line = 1 + k)
    ∧ analyze_dml_in_loops body = analyze_dml_in_loops body := by
  refine ⟨?_, ?_, rfl⟩
  · exact scanAux_length dmlEmit dmlMatchCount
      (fun i ls line => by simp [dmlEmit, dmlMatchCount]) (splitLines body) 1 (false, 0)
  · exact scanAux_mem_flag dmlEmit (fun i ls line g hg => dmlEmit_mem hg)
      (splitLines body) 1 (false, 0)

/-- C3 witness: the concrete finding of `simpleLoopExample` sits on a
line whose interior flag is `true`. -/
theorem dml_rescan_equivalence_witness :
    ∃ k, (loopInterior (splitLines simpleLoopExample)).get? k = some true
      ∧ simpleFinding.line = 1 + k :=
  (dml_rescan_equivalence simpleLoopExample).2.1 simpleFinding (by decide)

/-- C4: the DML finding sequence is ordered ascending by line number;
a loop-interior line matching two distinct DML patterns yields exactly
two findings with the same line number and loop-start line, and ties
follow the pattern-declaration order (`insert` before `update`). -/
theorem dml_order_and_ties (body : List Char) :
    ((analyze_dml_in_loops body).map (fun f => f.line)).Sorted (· ≤ ·)
    ∧ analyze_dml_in_loops twoTokenExample
        = [{ line := 2, code := twoTokenCode, loop_start := 1 },
           { line := 2, code := twoTokenCode, loop_start := 1 }]
    ∧ dml_patterns.filter (fun p => dmlHit p twoTokenLine)
        = ["insert".data, "update".data] := by
  exact ⟨scanAux_sorted dmlEmit (fun i ls line g hg => dmlEmit_mem hg)
      (splitLines body) 1 (false, 0), by decide, by decide⟩

/-- C5: the DML sweep reports a loop-interior line iff one of the five
exact tokens occurs at a word boundary followed by at least one
whitespace character (case-sensitive); a differently-cased token or a
token not followed by whitespace yields no finding. -/
theorem dml_pattern_characterization :
    (∀ (i ls : Nat) (line : List Char),
        dmlEmit i ls line ≠ [] ↔ ∃ tok ∈ dml_patterns, dmlHit tok line = true)
    ∧ (∀ (tok line : List Char), dmlHit tok line = true ↔
        ∃ pre d post, line = pre ++ tok ++ d :: post ∧ isSpaceCh d = true ∧
          boundaryOk (lastChar none pre) = true)
    ∧ analyze_dml_in_loops caseLoopExample = []
    ∧ analyze_dml_in_loops semiLoopExample = []
    ∧ analyze_dml_in_loops simpleLoopExample = [simpleFinding] := by
  refine ⟨?_, fun tok line => searchWB_iff tok line none, by decide, by decide, by decide⟩
  intro i ls line
  unfold dmlEmit
  rw [ne_eq, List.map_eq_nil_iff, List.filter_eq_nil_iff]
  push_neg
  simp

/-- C5 witness: a concrete loop-interior line with a matching token is
reported. -/
theorem dml_pattern_characterization_witness : dmlEmit 2 1 twoTokenLine ≠ [] :=
  (dml_pattern_characterization.1 2 1 twoTokenLine).mpr
    ⟨"insert".data, by decide, by decide⟩

/-- C6: `analyze_bulkification` emits a DML warning iff the DML finding
list is non-empty and a SOQL warning iff the SOQL finding list is
non-empty (at most one of each, DML first), each warning's affected
lines being the findings' line numbers in detection order with
duplicates preserved; the function is pure and order-stable. -/
theorem bulk_warnings_spec (dml soql : List Finding) :
    (dml = [] → soql = [] → analyze_bulkification dml soql = [])
    ∧ (dml ≠ [] → soql = [] → analyze_bulkification dml soql
        = [{ message := dmlWarningMsg, affected_lines := dml.map (fun f => f.line) }])
    ∧ (dml = [] → soql ≠ [] → analyze_bulkification dml soql
        = [{ message := soqlWarningMsg, affected_lines := soql.map (fun f => f.line) }])
    ∧ (dml ≠ [] → soql ≠ [] → analyze_bulkification dml soql
        = [{ message := dmlWarningMsg, affected_lines := dml.map (fun f => f.line) },
           { message := soqlWarningMsg, affected_lines := soql.map (fun f => f.line) }])
    ∧ analyze_bulkification dml soql = analyze_bulkification dml soql := by
  refine ⟨?_, ?_, ?_, ?_, rfl⟩ <;> intro h1 h2 <;> simp [analyze_bulkification, h1, h2]

/-- C6 witness: concrete non-empty finding lists yield the two warnings
in order with the findings' line numbers. -/
theorem bulk_warnings_spec_witness :
    analyze_bulkification [simpleFinding] [simpleFinding]
      = [{ message := dmlWarningMsg, affected_lines := [2] },
         { message := soqlWarningMsg, affected_lines := [2] }] := by
  have h := (bulk_warnings_spec [simpleFinding] [simpleFinding]).2.2.2.1
    (by simp) (by simp)
  simpa using h

/-- C7: `recommend_approach` is a pure total lookup over three fixed
strings with inclusive, gap-free, non-overlapping tiers at 3/6. -/
theorem recommend_tiers (s : Nat) :
    (s ≤ 3 → recommend_approach s = simpleRec)
    ∧ (4 ≤ s → s ≤ 6 → recommend_approach s = bulkifiedRec)
    ∧ (7 ≤ s → recommend_approach s = unifiedRec) := by
  unfold recommend_approach
  refine ⟨fun h => ?_, fun h1 h2 => ?_, fun h => ?_⟩
  · simp [h]
  · rw [if_neg (by omega), if_pos h2]
  · rw [if_neg (by omega), if_neg (by omega)]

/-- C7 witness: one concrete score in each tier. -/
theorem recommend_tiers_witness :
    recommend_approach 2 = simpleRec ∧ recommend_approach 5 = bulkifiedRec
      ∧ recommend_approach 8 = unifiedRec :=
  ⟨(recommend_tiers 2).1 (by decide), (recommend_tiers 5).2.1 (by decide) (by decide),
   (recommend_tiers 8).2.2 (by decide)⟩

/-- C8: on empty input the (total) analysis yields complexity score 1,
empty finding and warning sequences, and the simple-handler
recommendation. -/
theorem empty_input_analysis :
    analyze [] = { dml := [], soql := [], bulk := [], complexity_score := 1,
                   recommendation := simpleRec } := by
  decide

/-- C9: for every input text, every finding of either sweep satisfies
`loop_start ≤ line`. -/
theorem loopstart_le_line (body : List Char) :
    ∀ f : Finding, (f ∈ analyze_dml_in_loops body ∨ f ∈ analyze_soql_in_loops body) →
      f.loop_start ≤ f.line := by
  intro f hf
  rcases hf with hf | hf
  · exact scanAux_loopstart_le dmlEmit (fun i ls line g hg => dmlEmit_mem hg)
      (splitLines body) 1 (false, 0) (Nat.zero_le 1) f hf
  · exact scanAux_loopstart_le soqlEmit (fun i ls line g hg => soqlEmit_mem hg)
      (splitLines body) 1 (false, 0) (Nat.zero_le 1) f hf

/-- C9 witness: the concrete finding of `simpleLoopExample`. -/
theorem loopstart_le_line_witness : simpleFinding.loop_start ≤ simpleFinding.line :=
  loopstart_le_line simpleLoopExample simpleFinding (Or.inl (by decide))

/-- C10: a line matching the loop-opening signature is itself tested in
the same step: if line k (0-based) of the input matches `for (` and
also an anti-pattern, the sweep produces a finding at that line whose
loop-start equals that same line's number. -/
theorem forline_tested_same_step (body : List Char) (k : Nat) (line : List Char)
    (hget : (splitLines body).get? k = some line)
    (hfor : containsForOpen line = true) :
    ((∃ p ∈ dml_patterns, dmlHit p line = true) →
      ∃ f ∈ analyze_dml_in_loops body, f.line = 1 + k ∧ f.loop_start = 1 + k)
    ∧ (soqlHit line = true →
      ∃ f ∈ analyze_soql_in_loops body, f.line = 1 + k ∧ f.loop_start = 1 + k) := by
  constructor
  · rintro ⟨p, hp, hhit⟩
    refine scanAux_get_for dmlEmit (fun i ls l g hg => dmlEmit_mem hg)
      (splitLines body) k line 1 (false, 0) hget hfor ?_
    intro j hnil
    unfold dmlEmit at hnil
    rw [List.map_eq_nil_iff, List.filter_eq_nil_iff] at hnil
    exact hnil p hp hhit
  · intro hhit
    refine scanAux_get_for soqlEmit (fun i ls l g hg => soqlEmit_mem hg)
      (splitLines body) k line 1 (false, 0) hget hfor ?_
    intro j
    simp [soqlEmit, hhit]

/-- C10 witness: concrete one-line inputs whose `for` line contains a
DML statement, respectively a SOQL query. -/
theorem forline_tested_same_step_witness :
    (∃ f ∈ analyze_dml_in_loops forDmlLine, f.line = 1 + 0 ∧ f.loop_start = 1 + 0)
    ∧ (∃ f ∈ analyze_soql_in_loops forSoqlLine, f.line = 1 + 0 ∧ f.loop_start = 1 + 0) :=
  ⟨(forline_tested_same_step forDmlLine 0 forDmlLine (by decide) (by decide)).1
      ⟨"insert".data, by decide, by decide⟩,
   (forline_tested_same_step forSoqlLine 0 forSoqlLine (by decide) (by decide)).2
      (by decide)⟩

end TriggerAnalyzer
